import Mathlib

/-!
Shallow embedding of the ProjectChecker repository (src/api.rs) and proofs
about its classification pipeline.  Rust strings are modelled as lists of
characters; Rust `HashMap`s appearing in the source are modelled as
association lists, and wherever the source iterates over a `HashMap`
(whose iteration order is unspecified) the theorems quantify over an
arbitrary permutation of the entry list.
-/

namespace ProjectChecker

/-- Rust strings are modelled as lists of characters. -/
abbrev Str := List Char

/-- Boolean test that the first list is a prefix of the second
(character-exact, as Rust `str::starts_with`). -/
def isPrefixOfB : Str → Str → Bool
  | [], _ => true
  | _ :: _, [] => false
  | c :: cs, d :: ds => c == d && isPrefixOfB cs ds

/-- Rust `str::ends_with`: the second argument is a suffix of the first. -/
def strEndsWith (s suff : Str) : Bool := isPrefixOfB suff.reverse s.reverse

/-- Rust `str::contains`: the needle occurs as a contiguous substring of
the haystack. -/
def strContains : Str → Str → Bool
  | hay, needle =>
    match hay with
    | [] => needle.isEmpty
    | c :: rest => isPrefixOfB needle (c :: rest) || strContains rest needle

/-- Rust `str::trim_start_matches` applied with the asterisk character:
drop every leading asterisk of a pattern. -/
def trimStartStars (p : Str) : Str := p.dropWhile (fun c => c == '*')

/-- Rust `str::split` on the slash character: every slash separates two
segments and empty segments are kept (so the result is never empty). -/
def splitOnSlash : Str → List Str
  | [] => [[]]
  | c :: cs =>
    if c == '/' then [] :: splitOnSlash cs
    else
      match splitOnSlash cs with
      | [] => [[c]]
      | s :: ss => (c :: s) :: ss

/-- `extract_owner_repo` from src/api.rs: split the URL on slashes,
reject when fewer than five parts result, otherwise return the parts at
index 3 and index 4 as (owner, repo). -/
def extract_owner_repo (github_url : Str) : Except Str (Str × Str) :=
  let url_parts := splitOnSlash github_url
  if url_parts.length < 5 then
    Except.error ("Invalid GitHub URL: ".toList ++ github_url)
  else
    Except.ok (url_parts.getD 3 [], url_parts.getD 4 [])

theorem splitOnSlash_ne_nil (s : Str) : splitOnSlash s ≠ [] := by
  cases s with
  | nil => simp [splitOnSlash]
  | cons c cs =>
    simp only [splitOnSlash]
    split
    · simp
    · cases h : splitOnSlash cs <;> simp

theorem splitOnSlash_no_slash (s : Str) (h : ∀ c ∈ s, c ≠ '/') :
    splitOnSlash s = [s] := by
  induction s with
  | nil => rfl
  | cons c cs ih =>
    have hc : c ≠ '/' := h c (List.mem_cons_self c cs)
    have ih' := ih (fun d hd => h d (List.mem_cons_of_mem c hd))
    simp only [splitOnSlash, ih']
    split
    · simp_all
    · rfl

theorem splitOnSlash_append (xs ys : Str) (h : ∀ c ∈ xs, c ≠ '/') :
    splitOnSlash (xs ++ '/' :: ys) = xs :: splitOnSlash ys := by
  induction xs with
  | nil => simp [splitOnSlash]
  | cons c cs ih =>
    have hc : (c == '/') = false := by
      simpa using h c (List.mem_cons_self c cs)
    have ih' := ih (fun d hd => h d (List.mem_cons_of_mem c hd))
    simp only [List.cons_append, splitOnSlash, hc, List.append_eq, if_false,
      Bool.false_eq_true, ih']

/-! ## The rule table and the file-type detector -/

/-- `FileTypes` from src/api.rs: ten categories, each a map from type name
to a list of suffix patterns.  Each Rust `HashMap<String, Vec<String>>`
is modelled as an association list; the source iterates over the map, so
theorems sensitive to iteration order quantify over permutations. -/
structure FileTypes where
  programming_languages : List (Str × List Str)
  web_files : List (Str × List Str)
  config_files : List (Str × List Str)
  documentation : List (Str × List Str)
  images : List (Str × List Str)
  video : List (Str × List Str)
  audio : List (Str × List Str)
  archives : List (Str × List Str)
  fonts : List (Str × List Str)
  other : List (Str × List Str)

/-- The `all_types` vector built at the top of `detect_file_type`:
the ten categories in their fixed source order. -/
def allTypes (m : FileTypes) : List (List (Str × List Str)) :=
  [m.programming_languages, m.web_files, m.config_files, m.documentation,
   m.images, m.video, m.audio, m.archives, m.fonts, m.other]

/-- One pattern test from `detect_file_type`:
`path.ends_with(pattern.trim_start_matches ofStar)`. -/
def patternMatches (path p : Str) : Bool := strEndsWith path (trimStartStars p)

/-- The inner loops of `detect_file_type` over a single category: the
first entry one of whose patterns suffix-matches the path yields its
type name. -/
def matchInMap (path : Str) (typesMap : List (Str × List Str)) : Option Str :=
  (typesMap.find? (fun e => e.2.any (patternMatches path))).map Prod.fst

/-- `detect_file_type` from src/api.rs: scan the ten categories in order,
return the first matching type name, or the literal "Unknown" when no
pattern in any category matches. -/
def detect_file_type (path : Str) (m : FileTypes) : Str :=
  match (allTypes m).findSome? (matchInMap path) with
  | some ft => ft
  | none => "Unknown".toList

/-! ## Framework and project-type detection -/

/-- The `frameworks` map of `detect_framework`, in source insertion
order (all four keys are distinct, so insertion produces exactly these
entries; iteration order of the Rust `HashMap` is unspecified). -/
def frameworksList : List (Str × Str) :=
  [("next.config.js".toList, "Next.js".toList),
   ("next.config.mjs".toList, "Next.js".toList),
   ("vue.config".toList, "Vue.js".toList),
   ("angular.json".toList, "Angular".toList)]

/-- The `package_json_frameworks` map of `detect_framework`, in source
insertion order (keys distinct). -/
def packageJsonFrameworksList : List (Str × Str) :=
  [("react".toList, "React".toList),
   ("vue".toList, "Vue.js".toList),
   ("angular".toList, "Angular".toList)]

/-- `detect_framework` from src/api.rs, parameterised by the enumeration
order of its two hash maps: first a path-substring scan over the
framework table, then, for paths containing "package.json", a
content-substring scan over the dependency-name table; otherwise "None". -/
def detect_framework_with (fw pj : List (Str × Str)) (path content : Str) : Str :=
  match fw.find? (fun kv => strContains path kv.1) with
  | some kv => kv.2
  | none =>
    if strContains path "package.json".toList then
      match pj.find? (fun kv => strContains content kv.1) with
      | some kv => kv.2
      | none => "None".toList
    else "None".toList

/-- `detect_framework` with the canonical (insertion-order) enumeration. -/
def detect_framework (path content : Str) : Str :=
  detect_framework_with frameworksList packageJsonFrameworksList path content

/-- Rust `HashMap::insert` on the association-list model: overwrite the
value in place when the key is present, otherwise append the new entry. -/
def hmInsert (m : List (Str × Str)) (k v : Str) : List (Str × Str) :=
  if m.any (fun kv => kv.1 == k) then
    m.map (fun kv => if kv.1 == k then (k, v) else kv)
  else m ++ [(k, v)]

/-- The sequence of `project_types.insert` calls of
`detect_project_type_and_framework`, in source order.  Note that
"pom.xml" and "build.gradle" occur twice; the later insert overwrites
the earlier value. -/
def projectTypeInserts : List (Str × Str) :=
  [("pom.xml".toList, "Java Backend".toList),
   ("config.ru".toList, "Ruby Backend (Rails)".toList),
   ("main.go".toList, "Go Backend".toList),
   ("index.php".toList, "PHP Backend".toList),
   ("build.gradle".toList, "Kotlin Backend".toList),
   ("build.sbt".toList, "Scala Backend".toList),
   ("AndroidManifest.xml".toList, "Mobile App".toList),
   ("Info.plist".toList, "Mobile App".toList),
   ("MainActivity.java".toList, "Mobile App".toList),
   ("AppDelegate.swift".toList, "Mobile App".toList),
   ("electron".toList, "Desktop App".toList),
   (".desktop".toList, "Desktop App".toList),
   ("MainWindow.xaml".toList, "Desktop App".toList),
   ("Cargo.toml".toList, "Rust CLI Tool".toList),
   ("setup.py".toList, "Python CLI Tool".toList),
   ("Makefile".toList, "CLI Tool".toList),
   ("Program.cs".toList, "C# CLI Tool".toList),
   ("pom.xml".toList, "Java CLI Tool".toList),
   ("build.gradle".toList, "Gradle (Java/Kotlin) CLI Tool".toList),
   ("Go.mod".toList, "Go CLI Tool".toList),
   ("Rakefile".toList, "Ruby CLI Tool".toList)]

/-- The `project_types` map after all inserts (duplicate keys
overwritten), in insertion order. -/
def projectTypesList : List (Str × Str) :=
  projectTypeInserts.foldl (fun m kv => hmInsert m kv.1 kv.2) []

/-- `detect_project_type_and_framework` from src/api.rs, parameterised
by the enumeration order of the `project_types` hash map: paths ending
in ".html" or ".css" are websites (with a framework-derived companion
label); otherwise the first table entry whose key occurs in the path or
the content wins; otherwise (none, none). -/
def detect_project_type_and_framework_with (entries : List (Str × Str))
    (path content : Str) : Option Str × Option Str :=
  let framework := detect_framework path content
  if strEndsWith path ".html".toList || strEndsWith path ".css".toList then
    if framework ≠ "None".toList then
      (some "Website".toList, some ("Website using ".toList ++ framework))
    else
      (some "Website".toList, some "Static website".toList)
  else
    match entries.find? (fun kv => strContains path kv.1 || strContains content kv.1) with
    | some kv => (some kv.2, none)
    | none => (none, none)

/-- `detect_project_type_and_framework` with the canonical
(insertion-order) enumeration of the marker table. -/
def detect_project_type_and_framework (path content : Str) : Option Str × Option Str :=
  detect_project_type_and_framework_with projectTypesList path content

/-- The `project_combinations` vector of `detect_combined_project_type`,
verbatim from src/api.rs (including the repeated and cross-labelled
descriptions, and with the Website-only combination commented out in the
source and hence absent here). -/
def project_combinations : List (List Str × Str) :=
  [(["Website".toList, "Rust Backend".toList], "Website with Rust Backend".toList),
   (["Website".toList, "Python Backend".toList], "Website with Python Backend".toList),
   (["Website".toList, "C# Backend".toList], "Website with .NET Backend".toList),
   (["Website".toList, "Node.js Backend".toList], "Website with Node.js Backend".toList),
   (["Website".toList, "Java Backend".toList], "Website with Node.js Backend".toList),
   (["Website".toList, "Ruby Backend (Rails)".toList], "Website with Rust Backend".toList),
   (["Website".toList, "Go Backend".toList], "Website with Python Backend".toList),
   (["Website".toList, "PHP Backend".toList], "Website with .NET Backend".toList),
   (["Website".toList, "Kotlin Backend".toList], "Website with Node.js Backend".toList),
   (["Website".toList, "Scala Backend".toList], "Website with Node.js Backend".toList),
   (["Mobile App".toList], "Mobile App".toList),
   (["Desktop App".toList], "Desktop App".toList),
   (["CLI Tool".toList], "CLI Tool".toList)]

/-- `detect_combined_project_type` from src/api.rs: the description of
the first combination all of whose labels occur in the detected list,
else "Unknown Project Type". -/
def detect_combined_project_type (project_types : List Str) : Str :=
  match project_combinations.find?
      (fun c => c.1.all (fun t => project_types.contains t)) with
  | some c => c.2
  | none => "Unknown Project Type".toList

/-! ## The content fetcher -/

/-- `TreeNode` from src/api.rs (the `size` field is a machine integer in
the source, modelled as a natural number). -/
structure TreeNode where
  path : Str
  mode : Str
  ntype : Str
  sha : Str
  size : Option Nat
  url : Option Str
  deriving DecidableEq

/-- Outcome of one HTTP GET in the model of `fetch_files`: either the
transport fails (the `send().await?` returns an error), or a response
arrives with a success flag and a body read that may itself fail (the
`text().await?`). -/
inductive SendResult where
  | transportErr : SendResult
  | response (isSuccess : Bool) (body : Except Unit Str) : SendResult

/-- Association-list lookup, the observable behaviour of the `files`
hash map built by `fetch_files`. -/
def mapLookup (m : List (Str × Str)) (k : Str) : Option Str :=
  (m.find? (fun kv => kv.1 == k)).map Prod.snd

/-- The loop of `fetch_files` from src/api.rs with an explicit
accumulator: non-blob nodes are skipped; a blob without a URL is skipped
with a diagnostic; a transport error on `send` propagates through `?`
and aborts; on a success status the body is read (a read failure
propagates through `?`) and inserted; on a non-success status the body
is also read for the log line (a read failure propagates through `?`)
and the file is skipped. -/
def fetchFilesAux (net : Str → SendResult) (files : List (Str × Str)) :
    List TreeNode → Except Unit (List (Str × Str))
  | [] => Except.ok files
  | node :: rest =>
    if node.ntype == "blob".toList then
      match node.url with
      | none => fetchFilesAux net files rest
      | some u =>
        match net u with
        | SendResult.transportErr => Except.error ()
        | SendResult.response ok body =>
          if ok then
            match body with
            | Except.error _ => Except.error ()
            | Except.ok content => fetchFilesAux net (hmInsert files node.path content) rest
          else
            match body with
            | Except.error _ => Except.error ()
            | Except.ok _ => fetchFilesAux net files rest
    else fetchFilesAux net files rest

/-- `fetch_files` from src/api.rs, over a network oracle mapping each
blob URL to its fetch outcome. -/
def fetch_files (net : Str → SendResult) (tree : List TreeNode) :
    Except Unit (List (Str × Str)) :=
  fetchFilesAux net [] tree

/-! ## Generic helper lemmas -/

theorem find?_append {α : Type} (p : α → Bool) (l1 l2 : List α) :
    (l1 ++ l2).find? p =
      match l1.find? p with
      | some a => some a
      | none => l2.find? p := by
  induction l1 with
  | nil => simp
  | cons a l ih =>
    by_cases h : p a
    · simp [List.find?, h]
    · simp only [Bool.not_eq_true] at h
      simp [List.find?, h, ih]

theorem find?_map_perm {α β : Type} (f : α → β) (p : α → Bool) {l l' : List α}
    (hp : l.Perm l')
    (huniq : ∀ a ∈ l, ∀ b ∈ l, p a = true → p b = true → f a = f b) :
    (l.find? p).map f = (l'.find? p).map f := by
  cases h : l.find? p with
  | none =>
    have hnone : ∀ a ∈ l, ¬ p a = true := by
      intro a ha
      exact by simpa using List.find?_eq_none.mp h a ha
    have : l'.find? p = none := by
      apply List.find?_eq_none.mpr
      intro a ha
      exact hnone a (hp.mem_iff.mpr ha)
    simp [this]
  | some a =>
    have hpa : p a = true := List.find?_some h
    have hma : a ∈ l := List.mem_of_find?_eq_some h
    cases h' : l'.find? p with
    | none =>
      exact absurd hpa (by simpa using List.find?_eq_none.mp h' a (hp.mem_iff.mp hma))
    | some b =>
      have hpb : p b = true := List.find?_some h'
      have hmb : b ∈ l := hp.mem_iff.mpr (List.mem_of_find?_eq_some h')
      simp [huniq a hma b hmb hpa hpb]

theorem find?_key_map_replace (m : List (Str × Str)) (k v p : Str) (hpk : p ≠ k) :
    (m.map (fun kv => if kv.1 == k then (k, v) else kv)).find? (fun kv => kv.1 == p) =
      m.find? (fun kv => kv.1 == p) := by
  induction m with
  | nil => rfl
  | cons kv m ih =>
    rw [List.map_cons]
    by_cases hk : kv.1 = k
    · have h1 : (kv.1 == k) = true := by simp [hk]
      have h2 : (kv.1 == p) = false := by simpa [hk] using fun h => hpk h.symm
      have h3 : (k == p) = false := by simpa using fun h => hpk h.symm
      rw [if_pos h1]
      simp only [List.find?_cons, h2, h3, ih]
    · have h1 : (kv.1 == k) = false := by simpa using hk
      rw [if_neg (by simp [h1])]
      cases hp : (kv.1 == p) with
      | true => simp only [List.find?_cons, hp]
      | false => simp only [List.find?_cons, hp, ih]

theorem find?_key_map_replace_self (m : List (Str × Str)) (k v : Str)
    (hany : m.any (fun kv => kv.1 == k) = true) :
    (m.map (fun kv => if kv.1 == k then (k, v) else kv)).find? (fun kv => kv.1 == k) =
      some (k, v) := by
  induction m with
  | nil => simp at hany
  | cons kv m ih =>
    rw [List.map_cons]
    by_cases hk : kv.1 = k
    · have h1 : (kv.1 == k) = true := by simp [hk]
      rw [if_pos h1]
      simp only [List.find?_cons, beq_self_eq_true]
    · have h1 : (kv.1 == k) = false := by simpa using hk
      have hany' : m.any (fun kv => kv.1 == k) = true := by
        simpa [List.any_cons, h1] using hany
      rw [if_neg (by simp [h1])]
      simp only [List.find?_cons, h1, ih hany']

theorem mapLookup_hmInsert (m : List (Str × Str)) (k v p : Str) :
    mapLookup (hmInsert m k v) p = if p = k then some v else mapLookup m p := by
  by_cases hany : m.any (fun kv => kv.1 == k) = true
  · have hm : hmInsert m k v = m.map (fun kv => if kv.1 == k then (k, v) else kv) := by
      simp [hmInsert, hany]
    by_cases hpk : p = k
    · subst hpk
      unfold mapLookup
      rw [hm, find?_key_map_replace_self m p v hany, if_pos rfl]
      rfl
    · unfold mapLookup
      rw [hm, find?_key_map_replace m k v p hpk, if_neg hpk]
  · have hm : hmInsert m k v = m ++ [(k, v)] := by
      simp only [hmInsert, if_neg hany]
    have hnone : m.find? (fun kv => kv.1 == k) = none := by
      apply List.find?_eq_none.mpr
      intro kv hkv
      intro hc
      exact hany (List.any_eq_true.mpr ⟨kv, hkv, hc⟩)
    by_cases hpk : p = k
    · subst hpk
      simp [mapLookup, hm, find?_append, hnone, List.find?]
    · have h3 : (k == p) = false := by simpa using fun h => hpk h.symm
      simp only [mapLookup, hm, find?_append, if_neg hpk, List.find?, h3]
      cases hf : m.find? (fun kv => kv.1 == p) <;> simp

/-! ## Claim C1: failure tolerance of fetch_files -/

/-- A tree node whose content fetch succeeds: a blob carrying a URL
whose request returns a success status and the readable body `c`. -/
def fetchOk (net : Str → SendResult) (node : TreeNode) (c : Str) : Prop :=
  node.ntype = "blob".toList ∧
  ∃ u, node.url = some u ∧ net u = SendResult.response true (Except.ok c)

theorem fetchFilesAux_spec (net : Str → SendResult) :
    ∀ (tree : List TreeNode) (files : List (Str × Str)),
      (∀ node ∈ tree, node.ntype = "blob".toList → ∀ u, node.url = some u →
        ∃ ok body, net u = SendResult.response ok (Except.ok body)) →
      ∃ m, fetchFilesAux net files tree = Except.ok m ∧
        (∀ p, (mapLookup m p).isSome ↔
          ((mapLookup files p).isSome ∨ ∃ node ∈ tree, node.path = p ∧ ∃ c, fetchOk net node c)) ∧
        (∀ p c, mapLookup m p = some c →
          mapLookup files p = some c ∨ ∃ node ∈ tree, node.path = p ∧ fetchOk net node c) := by
  intro tree
  induction tree with
  | nil =>
    intro files _
    exact ⟨files, rfl, by simp, by simp⟩
  | cons node rest ih =>
    intro files hnet
    have hrest : ∀ n ∈ rest, n.ntype = "blob".toList → ∀ u, n.url = some u →
        ∃ ok body, net u = SendResult.response ok (Except.ok body) :=
      fun n hn => hnet n (List.mem_cons_of_mem _ hn)
    by_cases hb : node.ntype = "blob".toList
    · cases hu : node.url with
      | none =>
        obtain ⟨m, hm, hA, hB⟩ := ih files hrest
        have hnode : ∀ c, ¬ fetchOk net node c := by
          rintro c ⟨-, u, hu', -⟩
          simp [hu] at hu'
        refine ⟨m, ?_, ?_, ?_⟩
        · simpa [fetchFilesAux, hb, hu] using hm
        · intro p
          rw [hA p]
          constructor
          · rintro (h | ⟨n, hn, hp, c, hc⟩)
            · exact Or.inl h
            · exact Or.inr ⟨n, List.mem_cons_of_mem _ hn, hp, c, hc⟩
          · rintro (h | ⟨n, hn, hp, c, hc⟩)
            · exact Or.inl h
            · rcases List.mem_cons.mp hn with rfl | hn'
              · exact absurd hc (hnode c)
              · exact Or.inr ⟨n, hn', hp, c, hc⟩
        · intro p c hc
          rcases hB p c hc with h | ⟨n, hn, hp, hok⟩
          · exact Or.inl h
          · exact Or.inr ⟨n, List.mem_cons_of_mem _ hn, hp, hok⟩
      | some u =>
        obtain ⟨ok, body, hresp⟩ := hnet node (List.mem_cons_self _ _) hb u hu
        cases ok with
        | true =>
          obtain ⟨m, hm, hA, hB⟩ := ih (hmInsert files node.path body) hrest
          have hnode : fetchOk net node body := ⟨hb, u, hu, hresp⟩
          have hnodeself : ∀ c, fetchOk net node c → c = body := by
            rintro c ⟨-, u', hu', hresp'⟩
            rw [hu] at hu'
            cases hu'
            rw [hresp] at hresp'
            cases hresp'
            rfl
          refine ⟨m, ?_, ?_, ?_⟩
          · simpa [fetchFilesAux, hb, hu, hresp] using hm
          · intro p
            rw [hA p, mapLookup_hmInsert]
            by_cases hp : p = node.path
            · subst hp
              rw [if_pos rfl]
              constructor
              · intro _
                exact Or.inr ⟨node, List.mem_cons_self _ _, rfl, body, hnode⟩
              · intro _
                exact Or.inl (by simp)
            · rw [if_neg hp]
              constructor
              · rintro (h | ⟨n, hn, hpn, c, hc⟩)
                · exact Or.inl h
                · exact Or.inr ⟨n, List.mem_cons_of_mem _ hn, hpn, c, hc⟩
              · rintro (h | ⟨n, hn, hpn, c, hc⟩)
                · exact Or.inl h
                · rcases List.mem_cons.mp hn with rfl | hn'
                  · exact absurd hpn.symm hp
                  · exact Or.inr ⟨n, hn', hpn, c, hc⟩
          · intro p c hc
            rcases hB p c hc with h | ⟨n, hn, hpn, hok⟩
            · rw [mapLookup_hmInsert] at h
              by_cases hp : p = node.path
              · rw [if_pos hp] at h
                cases h
                exact Or.inr ⟨node, List.mem_cons_self _ _, hp.symm, hnode⟩
              · rw [if_neg hp] at h
                exact Or.inl h
            · exact Or.inr ⟨n, List.mem_cons_of_mem _ hn, hpn, hok⟩
        | false =>
          obtain ⟨m, hm, hA, hB⟩ := ih files hrest
          have hnode : ∀ c, ¬ fetchOk net node c := by
            rintro c ⟨-, u', hu', hresp'⟩
            rw [hu] at hu'
            cases hu'
            rw [hresp] at hresp'
            cases hresp'
          refine ⟨m, ?_, ?_, ?_⟩
          · simpa [fetchFilesAux, hb, hu, hresp] using hm
          · intro p
            rw [hA p]
            constructor
            · rintro (h | ⟨n, hn, hpn, c, hc⟩)
              · exact Or.inl h
              · exact Or.inr ⟨n, List.mem_cons_of_mem _ hn, hpn, c, hc⟩
            · rintro (h | ⟨n, hn, hpn, c, hc⟩)
              · exact Or.inl h
              · rcases List.mem_cons.mp hn with rfl | hn'
                · exact absurd hc (hnode c)
                · exact Or.inr ⟨n, hn', hpn, c, hc⟩
          · intro p c hc
            rcases hB p c hc with h | ⟨n, hn, hpn, hok⟩
            · exact Or.inl h
            · exact Or.inr ⟨n, List.mem_cons_of_mem _ hn, hpn, hok⟩
    · obtain ⟨m, hm, hA, hB⟩ := ih files hrest
      have hbb : (node.ntype == "blob".toList) = false := by simpa using hb
      have hnode : ∀ c, ¬ fetchOk net node c := by
        rintro c ⟨hb', -⟩
        exact hb hb'
      refine ⟨m, ?_, ?_, ?_⟩
      · have hbP : ¬ (node.ntype = ['b', 'l', 'o', 'b']) := by simpa using hb
        simpa [fetchFilesAux, hbP] using hm
      · intro p
        rw [hA p]
        constructor
        · rintro (h | ⟨n, hn, hpn, c, hc⟩)
          · exact Or.inl h
          · exact Or.inr ⟨n, List.mem_cons_of_mem _ hn, hpn, c, hc⟩
        · rintro (h | ⟨n, hn, hpn, c, hc⟩)
          · exact Or.inl h
          · rcases List.mem_cons.mp hn with rfl | hn'
            · exact absurd hc (hnode c)
            · exact Or.inr ⟨n, hn', hpn, c, hc⟩
      · intro p c hc
        rcases hB p c hc with h | ⟨n, hn, hpn, hok⟩
        · exact Or.inl h
        · exact Or.inr ⟨n, List.mem_cons_of_mem _ hn, hpn, hok⟩

/-- Network oracle for the transport-error scenario: the URL "u1" fails
at transport level, every other URL succeeds with a readable body. -/
def cexNetC1 : Str → SendResult := fun u =>
  if u == "u1".toList then SendResult.transportErr
  else SendResult.response true (Except.ok "hello".toList)

/-- Two blob entries with URLs; only the first one's fetch fails. -/
def cexTreeC1 : List TreeNode :=
  [⟨"a.rs".toList, "100644".toList, "blob".toList, "s1".toList, some 10, some "u1".toList⟩,
   ⟨"b.rs".toList, "100644".toList, "blob".toList, "s2".toList, some 10, some "u2".toList⟩]

/-- C1, counterexample: a transport error on one file's request does NOT
merely exclude that file — `fetch_files` propagates it through `?` and
aborts the whole batch, so the successfully fetchable second blob is not
returned either. -/
theorem fetch_files_transport_error_aborts :
    fetch_files cexNetC1 cexTreeC1 = Except.error () ∧
    cexNetC1 "u2".toList = SendResult.response true (Except.ok "hello".toList) ∧
    ∃ n ∈ cexTreeC1, n.path = "b.rs".toList ∧ n.ntype = "blob".toList ∧
      n.url = some "u2".toList := by
  refine ⟨rfl, rfl, ⟨"b.rs".toList, "100644".toList, "blob".toList, "s2".toList,
    some 10, some "u2".toList⟩, by decide, rfl, rfl, rfl⟩

/-- C1, amended: when no blob's request fails at transport level and
every response body is readable, `fetch_files` returns a mapping: a blob
with a non-success status is only excluded, every blob with a success
status is present, and every mapping entry comes from some
successfully fetched blob.  (As stated the claim is false: a transport
error, unlike a non-success status, aborts the whole batch.) -/
theorem fetch_files_partial_results (net : Str → SendResult) (tree : List TreeNode)
    (hnet : ∀ node ∈ tree, node.ntype = "blob".toList → ∀ u, node.url = some u →
      ∃ ok body, net u = SendResult.response ok (Except.ok body)) :
    ∃ m, fetch_files net tree = Except.ok m ∧
      (∀ node ∈ tree, ∀ c, fetchOk net node c → (mapLookup m node.path).isSome) ∧
      (∀ p c, mapLookup m p = some c →
        ∃ node ∈ tree, node.path = p ∧ fetchOk net node c) := by
  obtain ⟨m, hm, hA, hB⟩ := fetchFilesAux_spec net tree [] hnet
  refine ⟨m, hm, ?_, ?_⟩
  · intro node hn c hc
    rw [hA node.path]
    exact Or.inr ⟨node, hn, rfl, c, hc⟩
  · intro p c hc
    rcases hB p c hc with h | h
    · simp [mapLookup] at h
    · exact h

/-- Network oracle for the witness: every URL succeeds except "u9",
which returns a non-success status with a readable body. -/
def witNetC1 : Str → SendResult := fun u =>
  if u == "u9".toList then SendResult.response false (Except.ok "err".toList)
  else SendResult.response true (Except.ok "x".toList)

/-- One failing-status blob and one successful blob. -/
def witTreeC1 : List TreeNode :=
  [⟨"bad.rs".toList, "100644".toList, "blob".toList, "s1".toList, some 1, some "u9".toList⟩,
   ⟨"good.rs".toList, "100644".toList, "blob".toList, "s2".toList, some 1, some "u8".toList⟩]

theorem fetch_files_partial_results_witness :
    ∃ m, fetch_files witNetC1 witTreeC1 = Except.ok m ∧
      (∀ node ∈ witTreeC1, ∀ c, fetchOk witNetC1 node c → (mapLookup m node.path).isSome) ∧
      (∀ p c, mapLookup m p = some c →
        ∃ node ∈ witTreeC1, node.path = p ∧ fetchOk witNetC1 node c) := by
  apply fetch_files_partial_results witNetC1 witTreeC1
  intro node hn hb u hu
  rcases List.mem_cons.mp hn with rfl | hn'
  · cases hu
    exact ⟨false, "err".toList, rfl⟩
  · rcases List.mem_cons.mp hn' with rfl | hn''
    · cases hu
      exact ⟨true, "x".toList, rfl⟩
    · simp at hn''

/-! ## Claim C2: the repository locator -/

theorem splitOnSlash_cons_slash (t : Str) : splitOnSlash ('/' :: t) = [] :: splitOnSlash t := by
  simp [splitOnSlash]

/-- Refinement reference for claim C2, following the spec text: trim one
trailing path separator, split on slashes, require at least two
segments, and return the last two as (owner, name). -/
def parseRepoId_spec (url : Str) : Except Unit (Str × Str) :=
  let trimmed := if strEndsWith url ['/'] then url.dropLast else url
  let parts := splitOnSlash trimmed
  if 2 ≤ parts.length then
    Except.ok (parts.getD (parts.length - 2) [], parts.getD (parts.length - 1) [])
  else Except.error ()

/-- C2, counterexample: the code is not the trim-split-last-two parser
of the claim.  On "a/b" (two segments) the claim's parser succeeds with
(a, b) but `extract_owner_repo` fails, and on a URL with an extra path
segment the claim's parser returns the last two segments (b, c) while
`extract_owner_repo` returns the fixed-position segments (a, b). -/
theorem extract_owner_repo_cex :
    extract_owner_repo "a/b".toList = Except.error ("Invalid GitHub URL: a/b".toList) ∧
    parseRepoId_spec "a/b".toList = Except.ok ("a".toList, "b".toList) ∧
    extract_owner_repo "https://github.com/a/b/c".toList =
      Except.ok ("a".toList, "b".toList) ∧
    parseRepoId_spec "https://github.com/a/b/c".toList =
      Except.ok ("b".toList, "c".toList) :=
  ⟨rfl, rfl, rfl, rfl⟩

/-- C2, amended: `extract_owner_repo` splits the URL on slashes without
any trimming and fails exactly when fewer than five parts result;
otherwise it returns the parts at indices 3 and 4.  For well-formed
"scheme://host/owner/repo" URLs in the GitHub shape (owner and repo
slash-free), optionally with one trailing slash, those parts are the
last two non-empty path segments (owner, repo). -/
theorem extract_owner_repo_amended :
    (∀ s : Str, (splitOnSlash s).length < 5 →
      extract_owner_repo s = Except.error ("Invalid GitHub URL: ".toList ++ s)) ∧
    (∀ s : Str, 5 ≤ (splitOnSlash s).length →
      extract_owner_repo s =
        Except.ok ((splitOnSlash s).getD 3 [], (splitOnSlash s).getD 4 [])) ∧
    (∀ owner repo : Str, (∀ c ∈ owner, c ≠ '/') → (∀ c ∈ repo, c ≠ '/') →
      extract_owner_repo ("https://github.com/".toList ++ owner ++ '/' :: repo) =
        Except.ok (owner, repo) ∧
      extract_owner_repo ("https://github.com/".toList ++ owner ++ '/' :: (repo ++ ['/'])) =
        Except.ok (owner, repo)) := by
  refine ⟨?_, ?_, ?_⟩
  · intro s h
    simp [extract_owner_repo, h]
  · intro s h
    simp [extract_owner_repo, Nat.not_lt.mpr h]
  · intro owner repo howner hrepo
    have heq : "https://github.com/".toList ++ owner ++ '/' :: repo =
        "https:".toList ++ '/' :: '/' :: ("github.com".toList ++ '/' ::
          (owner ++ '/' :: repo)) := rfl
    have heq2 : "https://github.com/".toList ++ owner ++ '/' :: (repo ++ ['/']) =
        "https:".toList ++ '/' :: '/' :: ("github.com".toList ++ '/' ::
          (owner ++ '/' :: (repo ++ ['/']))) := rfl
    have hsplit : splitOnSlash ("https://github.com/".toList ++ owner ++ '/' :: repo) =
        ["https:".toList, [], "github.com".toList, owner, repo] := by
      rw [heq, splitOnSlash_append "https:".toList _ (by decide), splitOnSlash_cons_slash,
        splitOnSlash_append "github.com".toList _ (by decide),
        splitOnSlash_append owner _ howner, splitOnSlash_no_slash repo hrepo]
    have hsplit2 : splitOnSlash ("https://github.com/".toList ++ owner ++ '/' :: (repo ++ ['/'])) =
        ["https:".toList, [], "github.com".toList, owner, repo, []] := by
      rw [heq2, splitOnSlash_append "https:".toList _ (by decide), splitOnSlash_cons_slash,
        splitOnSlash_append "github.com".toList _ (by decide),
        splitOnSlash_append owner _ howner, splitOnSlash_append repo _ hrepo]
      rfl
    constructor
    · simp only [extract_owner_repo]
      rw [hsplit]
      simp
    · simp only [extract_owner_repo]
      rw [hsplit2]
      simp

theorem extract_owner_repo_amended_witness :
    extract_owner_repo "https://github.com/rust-lang/rust".toList =
      Except.ok ("rust-lang".toList, "rust".toList) := by
  have h := (extract_owner_repo_amended.2.2 "rust-lang".toList "rust".toList
    (by decide) (by decide)).1
  exact h

/-! ## Claim C3: static websites and the combined project type -/

/-- C3, counterexample: an .html path with no framework markers yields
the signals ("Website", "Static website"), but with exactly those labels
detected the combiner returns "Unknown Project Type", not
"Static website": the Website-only combination is commented out in the
source and no combination description equals "Static website". -/
theorem static_website_combined_cex :
    detect_project_type_and_framework "app/index.html".toList [] =
      (some "Website".toList, some "Static website".toList) ∧
    detect_combined_project_type ["Website".toList, "Static website".toList] =
      "Unknown Project Type".toList ∧
    "Unknown Project Type".toList ≠ "Static website".toList := by
  refine ⟨by decide, by decide, by decide⟩

/-- C3, amended: for every path ending in ".html" on which no framework
is detected, classification yields the signal "Website" plus the
synthesized label "Static website"; however, when exactly these labels
are detected, `detect_combined_project_type` returns
"Unknown Project Type", not "Static website". -/
theorem static_website_classification (path content : Str)
    (hhtml : strEndsWith path ".html".toList = true)
    (hfw : detect_framework path content = "None".toList) :
    detect_project_type_and_framework path content =
      (some "Website".toList, some "Static website".toList) ∧
    detect_combined_project_type ["Website".toList, "Static website".toList] =
      "Unknown Project Type".toList := by
  constructor
  · simp only [detect_project_type_and_framework, detect_project_type_and_framework_with]
    rw [if_pos (show _ = true by rw [hhtml, Bool.true_or]), if_neg (not_not_intro hfw)]
  · decide

theorem static_website_classification_witness :
    detect_project_type_and_framework "app/index.html".toList [] =
      (some "Website".toList, some "Static website".toList) ∧
    detect_combined_project_type ["Website".toList, "Static website".toList] =
      "Unknown Project Type".toList :=
  static_website_classification "app/index.html".toList [] (by decide) (by decide)

/-! ## Claim C5: the combination table is not one-to-one -/

/-- C5: the combination table maps distinct backend stacks to colliding
and cross-labelled descriptions: Java and Node.js backends share one
description, the Go entry yields a Python-labelled description, the PHP
entry a .NET-labelled one and the Ruby entry a Rust-labelled one. -/
theorem combination_table_collisions :
    detect_combined_project_type ["Website".toList, "Java Backend".toList] =
      "Website with Node.js Backend".toList ∧
    detect_combined_project_type ["Website".toList, "Node.js Backend".toList] =
      "Website with Node.js Backend".toList ∧
    detect_combined_project_type ["Website".toList, "Go Backend".toList] =
      "Website with Python Backend".toList ∧
    detect_combined_project_type ["Website".toList, "PHP Backend".toList] =
      "Website with .NET Backend".toList ∧
    detect_combined_project_type ["Website".toList, "Ruby Backend (Rails)".toList] =
      "Website with Rust Backend".toList := by
  refine ⟨by decide, by decide, by decide, by decide, by decide⟩

/-! ## Claim C7: first-match semantics of the combiner -/

theorem find?_of_first {α : Type} (d : α) (p : α → Bool) :
    ∀ (l : List α) (i : Nat), i < l.length → p (l.getD i d) = true →
      (∀ j, j < i → p (l.getD j d) = false) →
      l.find? p = some (l.getD i d) := by
  intro l
  induction l with
  | nil => intro i h; exact absurd h (by simp)
  | cons a l ih =>
    intro i h hp hfirst
    cases i with
    | zero =>
      rw [List.getD_cons_zero] at hp ⊢
      simp only [List.find?_cons, hp]
    | succ i =>
      have ha : p a = false := by
        have := hfirst 0 (Nat.succ_pos i)
        rwa [List.getD_cons_zero] at this
      rw [List.getD_cons_succ] at hp ⊢
      simp only [List.find?_cons, ha]
      exact ih i (Nat.lt_of_succ_lt_succ h) hp
        (fun j hj => by
          have := hfirst (j + 1) (Nat.succ_lt_succ hj)
          rwa [List.getD_cons_succ] at this)

/-- C7: the combiner returns "Unknown Project Type" exactly when no
combination's labels are all contained in the detected list, and
whenever the combination at index i is the first whose labels are all
present, its fixed description is returned. -/
theorem detect_combined_first_match (pts : List Str) :
    (detect_combined_project_type pts = "Unknown Project Type".toList ↔
      ∀ c ∈ project_combinations, ¬ c.1.all (fun t => pts.contains t) = true) ∧
    (∀ i : Nat, i < project_combinations.length →
      (project_combinations.getD i ([], [])).1.all (fun t => pts.contains t) = true →
      (∀ j, j < i →
        (project_combinations.getD j ([], [])).1.all (fun t => pts.contains t) = false) →
      detect_combined_project_type pts = (project_combinations.getD i ([], [])).2) := by
  constructor
  · constructor
    · intro hres c hc hall
      cases hf : project_combinations.find? (fun c => c.1.all (fun t => pts.contains t)) with
      | none =>
        exact absurd hall (by simpa using List.find?_eq_none.mp hf c hc)
      | some c' =>
        have h2 : detect_combined_project_type pts = c'.2 := by
          unfold detect_combined_project_type
          rw [hf]
        have hne : c'.2 ≠ "Unknown Project Type".toList := by
          have hval : ∀ x ∈ project_combinations, x.2 ≠ "Unknown Project Type".toList := by
            decide
          exact hval c' (List.mem_of_find?_eq_some hf)
        exact absurd (h2.symm.trans hres) hne
    · intro hnone
      unfold detect_combined_project_type
      rw [List.find?_eq_none.mpr hnone]
  · intro i h hi hfirst
    unfold detect_combined_project_type
    rw [find?_of_first ([], []) _ project_combinations i h hi hfirst]

theorem detect_combined_first_match_witness :
    detect_combined_project_type ["Website".toList, "Go Backend".toList] =
      (project_combinations.getD 6 ([], [])).2 :=
  (detect_combined_first_match ["Website".toList, "Go Backend".toList]).2 6
    (by decide) (by decide) (by decide)

/-! ## Claim C8: determinism and permutation-stability of the combiner -/

/-- C8: the combiner is a deterministic function of the detected-label
sequence (re-running it yields the same description), and any
permutation of the detected labels leaves the result unchanged — even
without the claim's restriction to a single satisfied combination,
since membership tests are permutation-invariant and the combination
list itself has a fixed order. -/
theorem detect_combined_perm_invariant (l l' : List Str) (hp : l.Perm l') :
    detect_combined_project_type l = detect_combined_project_type l' ∧
    detect_combined_project_type l = detect_combined_project_type l := by
  refine ⟨?_, rfl⟩
  have hcont : ∀ t : Str, l.contains t = l'.contains t := by
    intro t
    by_cases h : t ∈ l
    · rw [show l.contains t = true by simpa using h,
        show l'.contains t = true by simpa using hp.mem_iff.mp h]
    · rw [show l.contains t = false by simpa using h,
        show l'.contains t = false by simpa using fun hm => h (hp.mem_iff.mpr hm)]
  have hpred : (fun c : List Str × Str => c.1.all (fun t => l.contains t)) =
      (fun c : List Str × Str => c.1.all (fun t => l'.contains t)) := by
    funext c
    congr 1
    funext t
    exact hcont t
  unfold detect_combined_project_type
  rw [hpred]

theorem detect_combined_perm_invariant_witness :
    detect_combined_project_type ["Go Backend".toList, "Website".toList] =
      detect_combined_project_type ["Website".toList, "Go Backend".toList] ∧
    detect_combined_project_type ["Go Backend".toList, "Website".toList] =
      detect_combined_project_type ["Go Backend".toList, "Website".toList] :=
  detect_combined_perm_invariant _ _
    (List.Perm.swap "Website".toList "Go Backend".toList [])

/-! ## Claim C9: the website check precedes the marker table -/

/-- C9: for every path ending in ".html" or ".css" the project-type
signal is "Website" and the companion label is either
"Website using <framework>" or "Static website" — the marker table is
never consulted, whatever the path or content contains. -/
theorem website_precedence (path content : Str)
    (h : strEndsWith path ".html".toList = true ∨ strEndsWith path ".css".toList = true) :
    (detect_project_type_and_framework path content).1 = some "Website".toList ∧
    ((detect_project_type_and_framework path content).2 =
        some ("Website using ".toList ++ detect_framework path content) ∨
      (detect_project_type_and_framework path content).2 = some "Static website".toList) := by
  simp only [detect_project_type_and_framework, detect_project_type_and_framework_with]
  have hcond : (strEndsWith path ".html".toList || strEndsWith path ".css".toList) = true := by
    rcases h with h | h
    · rw [h, Bool.true_or]
    · rw [h, Bool.or_true]
  rw [if_pos hcond]
  by_cases hfw : detect_framework path content = "None".toList
  · rw [if_neg (not_not_intro hfw)]
    exact ⟨rfl, Or.inr rfl⟩
  · rw [if_pos hfw]
    exact ⟨rfl, Or.inl rfl⟩

theorem website_precedence_witness :
    (detect_project_type_and_framework "x.html".toList "pom.xml".toList).1 =
      some "Website".toList ∧
    ((detect_project_type_and_framework "x.html".toList "pom.xml".toList).2 =
        some ("Website using ".toList ++
          detect_framework "x.html".toList "pom.xml".toList) ∨
      (detect_project_type_and_framework "x.html".toList "pom.xml".toList).2 =
        some "Static website".toList) :=
  website_precedence "x.html".toList "pom.xml".toList (Or.inl (by decide))

/-! ## Claim C6: category order and suffix matching in detect_file_type -/

theorem findSome?_matchInMap_eq_join (path : Str) :
    ∀ cats : List (List (Str × List Str)),
      cats.findSome? (matchInMap path) =
        ((cats.flatten).find? (fun e => e.2.any (patternMatches path))).map Prod.fst := by
  intro cats
  induction cats with
  | nil => rfl
  | cons cat rest ih =>
    rw [List.flatten_cons, find?_append]
    simp only [List.findSome?_cons]
    cases h : cat.find? (fun e => e.2.any (patternMatches path)) with
    | some e => simp [matchInMap, h]
    | none => simp [matchInMap, h, ih]

/-- C6: file-type detection is equivalent to one first-match scan over
the concatenation of the ten categories in the fixed source order
(programming languages, web files, config files, documentation, images,
video, audio, archives, fonts, other); a pattern matches exactly when
its form with the leading asterisks stripped is a suffix of the raw
path; and when no pattern of any category matches the result is the
literal "Unknown". -/
theorem detect_file_type_spec (path : Str) (m : FileTypes) :
    (∀ p : Str, patternMatches path p = strEndsWith path (trimStartStars p)) ∧
    detect_file_type path m =
      ((((allTypes m).flatten).find? (fun e => e.2.any (patternMatches path))).map
        Prod.fst).getD "Unknown".toList ∧
    ((∀ e ∈ (allTypes m).flatten, ∀ p ∈ e.2, patternMatches path p = false) →
      detect_file_type path m = "Unknown".toList) := by
  have hjoin := findSome?_matchInMap_eq_join path (allTypes m)
  refine ⟨fun p => rfl, ?_, ?_⟩
  · unfold detect_file_type
    rw [hjoin]
    cases h : ((allTypes m).flatten).find? (fun e => e.2.any (patternMatches path)) with
    | some e => simp
    | none => simp
  · intro hnone
    have hfind : ((allTypes m).flatten).find? (fun e => e.2.any (patternMatches path)) = none := by
      apply List.find?_eq_none.mpr
      intro e he hany
      obtain ⟨p, hp, hmatch⟩ := List.any_eq_true.mp hany
      exact absurd hmatch (by simp [hnone e he p hp])
    unfold detect_file_type
    rw [hjoin, hfind]
    rfl

/-- A one-category table mapping the type name "Rust" to the suffix
pattern "*.rs", for concrete evaluation. -/
def witTableC6 : FileTypes :=
  ⟨[("Rust".toList, ["*.rs".toList])], [], [], [], [], [], [], [], [], []⟩

theorem detect_file_type_spec_witness :
    detect_file_type "src/main.rs".toList witTableC6 = "Rust".toList ∧
    detect_file_type "weird.unknown".toList witTableC6 = "Unknown".toList := by
  constructor
  · have h := (detect_file_type_spec "src/main.rs".toList witTableC6).2.1
    rw [h]
    decide
  · exact (detect_file_type_spec "weird.unknown".toList witTableC6).2.2 (by decide)

/-! ## Claim C4: purity and iteration-order dependence of classification -/

/-- At most one type name of the category matches the path: any two
matching entries carry the same name. -/
def uniqMatch (path : Str) (cat : List (Str × List Str)) : Prop :=
  ∀ e ∈ cat, ∀ e2 ∈ cat, e.2.any (patternMatches path) = true →
    e2.2.any (patternMatches path) = true → e.1 = e2.1

instance uniqMatchDecidable (path : Str) (cat : List (Str × List Str)) :
    Decidable (uniqMatch path cat) := by
  unfold uniqMatch
  infer_instance

theorem matchInMap_perm (path : Str) {cat cat' : List (Str × List Str)}
    (hp : cat.Perm cat') (hu : uniqMatch path cat) :
    matchInMap path cat = matchInMap path cat' :=
  find?_map_perm Prod.fst _ hp hu

theorem findSome?_matchInMap_congr (path : Str) :
    ∀ {cats cats' : List (List (Str × List Str))}, List.Forall₂ List.Perm cats cats' →
      (∀ cat ∈ cats, uniqMatch path cat) →
      cats.findSome? (matchInMap path) = cats'.findSome? (matchInMap path) := by
  intro cats cats' hf
  induction hf with
  | nil => intro _; rfl
  | @cons a b l1 l2 hab _ ih =>
    intro huniq
    have h1 : matchInMap path a = matchInMap path b :=
      matchInMap_perm path hab (huniq a (List.mem_cons_self _ _))
    simp only [List.findSome?_cons, h1]
    cases hm : matchInMap path b with
    | some ft => rfl
    | none => exact ih (fun cat hc => huniq cat (List.mem_cons_of_mem _ hc))

theorem detect_file_type_perm (path : Str) (m m' : FileTypes)
    (hperm : List.Forall₂ List.Perm (allTypes m) (allTypes m'))
    (huniq : ∀ cat ∈ allTypes m, uniqMatch path cat) :
    detect_file_type path m = detect_file_type path m' := by
  unfold detect_file_type
  rw [findSome?_matchInMap_congr path hperm huniq]

theorem detect_framework_perm (path content : Str) (fw pj : List (Str × Str))
    (hfw : fw.Perm frameworksList) (hpj : pj.Perm packageJsonFrameworksList)
    (hufw : ∀ kv ∈ frameworksList, ∀ kv2 ∈ frameworksList,
      strContains path kv.1 = true → strContains path kv2.1 = true → kv.2 = kv2.2)
    (hupj : ∀ kv ∈ packageJsonFrameworksList, ∀ kv2 ∈ packageJsonFrameworksList,
      strContains content kv.1 = true → strContains content kv2.1 = true → kv.2 = kv2.2) :
    detect_framework_with fw pj path content = detect_framework path content := by
  unfold detect_framework detect_framework_with
  have h1 := find?_map_perm Prod.snd (fun kv => strContains path kv.1) hfw
    (fun a ha b hb hpa hpb => hufw a (hfw.subset ha) b (hfw.subset hb) hpa hpb)
  cases ha : fw.find? (fun kv => strContains path kv.1) with
  | some kv =>
    rw [ha] at h1
    cases hb : frameworksList.find? (fun kv => strContains path kv.1) with
    | none => rw [hb] at h1; simp at h1
    | some kv2 =>
      rw [hb] at h1
      exact Option.some.inj h1
  | none =>
    rw [ha] at h1
    cases hb : frameworksList.find? (fun kv => strContains path kv.1) with
    | some kv2 => rw [hb] at h1; simp at h1
    | none =>
      by_cases hpkg : strContains path "package.json".toList = true
      · rw [if_pos hpkg, if_pos hpkg]
        have h2 := find?_map_perm Prod.snd (fun kv => strContains content kv.1) hpj
          (fun a ha2 b hb2 hpa hpb => hupj a (hpj.subset ha2) b (hpj.subset hb2) hpa hpb)
        cases hc : pj.find? (fun kv => strContains content kv.1) with
        | some kv =>
          rw [hc] at h2
          cases hd : packageJsonFrameworksList.find? (fun kv => strContains content kv.1) with
          | none => rw [hd] at h2; simp at h2
          | some kv2 =>
            rw [hd] at h2
            exact Option.some.inj h2
        | none =>
          rw [hc] at h2
          cases hd : packageJsonFrameworksList.find? (fun kv => strContains content kv.1) with
          | some kv2 => rw [hd] at h2; simp at h2
          | none => rfl
      · rw [if_neg hpkg, if_neg hpkg]

theorem detect_project_type_perm (path content : Str) (es : List (Str × Str))
    (hes : es.Perm projectTypesList)
    (hu : ∀ kv ∈ projectTypesList, ∀ kv2 ∈ projectTypesList,
      (strContains path kv.1 || strContains content kv.1) = true →
      (strContains path kv2.1 || strContains content kv2.1) = true → kv.2 = kv2.2) :
    detect_project_type_and_framework_with es path content =
      detect_project_type_and_framework path content := by
  unfold detect_project_type_and_framework detect_project_type_and_framework_with
  by_cases hweb : (strEndsWith path ".html".toList || strEndsWith path ".css".toList) = true
  · rw [if_pos hweb, if_pos hweb]
  · rw [if_neg hweb, if_neg hweb]
    have h1 := find?_map_perm Prod.snd
      (fun kv => strContains path kv.1 || strContains content kv.1) hes
      (fun a ha b hb hpa hpb => hu a (hes.subset ha) b (hes.subset hb) hpa hpb)
    cases ha : es.find? (fun kv => strContains path kv.1 || strContains content kv.1) with
    | some kv =>
      rw [ha] at h1
      cases hb : projectTypesList.find?
          (fun kv => strContains path kv.1 || strContains content kv.1) with
      | none => rw [hb] at h1; simp at h1
      | some kv2 =>
        rw [hb] at h1
        exact congrArg (fun x => (some x, (none : Option Str))) (Option.some.inj h1)
    | none =>
      rw [ha] at h1
      cases hb : projectTypesList.find?
          (fun kv => strContains path kv.1 || strContains content kv.1) with
      | some kv2 => rw [hb] at h1; simp at h1
      | none => rfl

/-- A rule table whose single category holds two type names with the
same suffix pattern. -/
def cexTableA : FileTypes :=
  ⟨[("TypeA".toList, ["*.x".toList]), ("TypeB".toList, ["*.x".toList])],
   [], [], [], [], [], [], [], [], []⟩

/-- The same table contents with the two entries enumerated in the
other order, as a differently seeded hash map may. -/
def cexTableB : FileTypes :=
  ⟨[("TypeB".toList, ["*.x".toList]), ("TypeA".toList, ["*.x".toList])],
   [], [], [], [], [], [], [], [], []⟩

/-- The framework table enumerated with the last two entries swapped. -/
def fwPermC4 : List (Str × Str) :=
  [("next.config.js".toList, "Next.js".toList),
   ("next.config.mjs".toList, "Next.js".toList),
   ("angular.json".toList, "Angular".toList),
   ("vue.config".toList, "Vue.js".toList)]

/-- C4, counterexample: classification is NOT independent of the
iteration order of the unordered containers.  Two tables with equal
map contents, differing only in enumeration order, classify the same
path as different file types, and the framework signal of a path
containing two framework keys flips between Vue.js and Angular under a
permutation of the framework table. -/
theorem classify_order_dependence_cex :
    cexTableA.programming_languages.Perm cexTableB.programming_languages ∧
    detect_file_type "a.x".toList cexTableA = "TypeA".toList ∧
    detect_file_type "a.x".toList cexTableB = "TypeB".toList ∧
    fwPermC4.Perm frameworksList ∧
    detect_framework "vue.config.angular.json".toList [] = "Vue.js".toList ∧
    detect_framework_with fwPermC4 packageJsonFrameworksList
      "vue.config.angular.json".toList [] = "Angular".toList := by
  refine ⟨List.Perm.swap _ _ _, by decide, by decide, ?_, by decide, by decide⟩
  exact List.Perm.append_left
    [("next.config.js".toList, "Next.js".toList), ("next.config.mjs".toList, "Next.js".toList)]
    (List.Perm.swap _ _ _)

/-- C4, amended: classification is a pure, deterministic function of
(path, content, table together with its enumeration order); categories
are scanned in their fixed order, but within each unordered container
the first match in that container's iteration order wins, so the result
is independent of iteration order only when matching entries cannot
disagree: under those uniqueness hypotheses every permutation of the
containers yields the same file type, framework signal and project-type
signal. -/
theorem classify_pure_modulo_iteration_order
    (path content : Str) (m m' : FileTypes) (fw pj es : List (Str × Str))
    (hcat : List.Forall₂ List.Perm (allTypes m) (allTypes m'))
    (huniq : ∀ cat ∈ allTypes m, uniqMatch path cat)
    (hfw : fw.Perm frameworksList) (hpj : pj.Perm packageJsonFrameworksList)
    (hufw : ∀ kv ∈ frameworksList, ∀ kv2 ∈ frameworksList,
      strContains path kv.1 = true → strContains path kv2.1 = true → kv.2 = kv2.2)
    (hupj : ∀ kv ∈ packageJsonFrameworksList, ∀ kv2 ∈ packageJsonFrameworksList,
      strContains content kv.1 = true → strContains content kv2.1 = true → kv.2 = kv2.2)
    (hes : es.Perm projectTypesList)
    (hu : ∀ kv ∈ projectTypesList, ∀ kv2 ∈ projectTypesList,
      (strContains path kv.1 || strContains content kv.1) = true →
      (strContains path kv2.1 || strContains content kv2.1) = true → kv.2 = kv2.2) :
    detect_file_type path m = detect_file_type path m' ∧
    detect_framework_with fw pj path content = detect_framework path content ∧
    detect_project_type_and_framework_with es path content =
      detect_project_type_and_framework path content :=
  ⟨detect_file_type_perm path m m' hcat huniq,
   detect_framework_perm path content fw pj hfw hpj hufw hupj,
   detect_project_type_perm path content es hes hu⟩

theorem classify_pure_modulo_iteration_order_witness :
    detect_file_type "src/main.rs".toList witTableC6 =
      detect_file_type "src/main.rs".toList witTableC6 ∧
    detect_framework_with frameworksList packageJsonFrameworksList
      "src/main.rs".toList [] = detect_framework "src/main.rs".toList [] ∧
    detect_project_type_and_framework_with projectTypesList
      "src/main.rs".toList [] = detect_project_type_and_framework "src/main.rs".toList [] :=
  classify_pure_modulo_iteration_order "src/main.rs".toList [] witTableC6 witTableC6
    frameworksList packageJsonFrameworksList projectTypesList
    (List.forall₂_same.mpr (fun a _ => List.Perm.refl a))
    (by decide) (List.Perm.refl _) (List.Perm.refl _) (by decide) (by decide)
    (List.Perm.refl _) (by decide)

/-! ## Claim C10: the double inserts of pom.xml and build.gradle -/

theorem detect_ptf_fst_shape (es : List (Str × Str)) (path content : Str) :
    (detect_project_type_and_framework_with es path content).1 = none ∨
    (detect_project_type_and_framework_with es path content).1 = some "Website".toList ∨
    ∃ kv ∈ es, (detect_project_type_and_framework_with es path content).1 = some kv.2 := by
  unfold detect_project_type_and_framework_with
  by_cases hweb : (strEndsWith path ".html".toList || strEndsWith path ".css".toList) = true
  · rw [if_pos hweb]
    by_cases hfw : detect_framework path content ≠ "None".toList
    · right; left
      rw [if_pos hfw]
    · right; left
      rw [if_neg hfw]
  · rw [if_neg hweb]
    cases hf : es.find? (fun kv => strContains path kv.1 || strContains content kv.1) with
    | some kv => exact Or.inr (Or.inr ⟨kv, List.mem_of_find?_eq_some hf, rfl⟩)
    | none => exact Or.inl rfl

theorem find?_marker (es : List (Str × Str)) (hes : es.Perm projectTypesList)
    (p : Str × Str → Bool) (k v : Str)
    (hmem : (k, v) ∈ projectTypesList) (hpk : p (k, v) = true)
    (honly : ∀ kv ∈ projectTypesList, p kv = true → kv = (k, v)) :
    es.find? p = some (k, v) := by
  cases hf : es.find? p with
  | none =>
    have hno := List.find?_eq_none.mp hf (k, v) (hes.mem_iff.mpr hmem)
    exact absurd hpk (by simpa using hno)
  | some kv' =>
    have h1 : p kv' = true := List.find?_some hf
    have h2 : kv' ∈ projectTypesList := hes.subset (List.mem_of_find?_eq_some hf)
    rw [honly kv' h2 h1]

/-- C10: after the duplicate inserts, the marker map carries
"pom.xml" → "Java CLI Tool" and "build.gradle" → "Gradle (Java/Kotlin)
CLI Tool"; under every iteration order of the map, no file ever
receives the signal "Java Backend" or "Kotlin Backend" (so the
Website+Java-Backend and Website+Kotlin-Backend combinations can never
be triggered by these markers), and a non-web file whose only matching
marker key is "pom.xml" (resp. "build.gradle") is signalled
"Java CLI Tool" (resp. "Gradle (Java/Kotlin) CLI Tool"). -/
theorem marker_overwrite_pom_gradle (es : List (Str × Str)) (path content : Str)
    (hes : es.Perm projectTypesList) :
    ((detect_project_type_and_framework_with es path content).1 ≠
        some "Java Backend".toList ∧
      (detect_project_type_and_framework_with es path content).1 ≠
        some "Kotlin Backend".toList) ∧
    (¬ (strEndsWith path ".html".toList || strEndsWith path ".css".toList) = true →
      (strContains path "pom.xml".toList || strContains content "pom.xml".toList) = true →
      (∀ kv ∈ projectTypesList,
        (strContains path kv.1 || strContains content kv.1) = true →
        kv.1 = "pom.xml".toList) →
      (detect_project_type_and_framework_with es path content).1 =
        some "Java CLI Tool".toList) ∧
    (¬ (strEndsWith path ".html".toList || strEndsWith path ".css".toList) = true →
      (strContains path "build.gradle".toList ||
        strContains content "build.gradle".toList) = true →
      (∀ kv ∈ projectTypesList,
        (strContains path kv.1 || strContains content kv.1) = true →
        kv.1 = "build.gradle".toList) →
      (detect_project_type_and_framework_with es path content).1 =
        some "Gradle (Java/Kotlin) CLI Tool".toList) := by
  have hvals : ∀ kv ∈ projectTypesList, kv.2 ≠ "Java Backend".toList ∧
      kv.2 ≠ "Kotlin Backend".toList := by decide
  refine ⟨⟨?_, ?_⟩, ?_, ?_⟩
  · intro heq
    rcases detect_ptf_fst_shape es path content with h | h | ⟨kv, hkv, h⟩
    · rw [h] at heq; cases heq
    · rw [h] at heq
      exact absurd (Option.some.inj heq) (by decide)
    · rw [h] at heq
      exact (hvals kv (hes.subset hkv)).1 (Option.some.inj heq)
  · intro heq
    rcases detect_ptf_fst_shape es path content with h | h | ⟨kv, hkv, h⟩
    · rw [h] at heq; cases heq
    · rw [h] at heq
      exact absurd (Option.some.inj heq) (by decide)
    · rw [h] at heq
      exact (hvals kv (hes.subset hkv)).2 (Option.some.inj heq)
  · intro hnw hmatch honlykey
    have hkey : ∀ kv ∈ projectTypesList, kv.1 = "pom.xml".toList →
        kv = ("pom.xml".toList, "Java CLI Tool".toList) := by decide
    have hfind := find?_marker es hes
      (fun kv => strContains path kv.1 || strContains content kv.1)
      "pom.xml".toList "Java CLI Tool".toList (by decide) hmatch
      (fun kv hkv hp => hkey kv hkv (honlykey kv hkv hp))
    unfold detect_project_type_and_framework_with
    rw [if_neg hnw, hfind]
  · intro hnw hmatch honlykey
    have hkey : ∀ kv ∈ projectTypesList, kv.1 = "build.gradle".toList →
        kv = ("build.gradle".toList, "Gradle (Java/Kotlin) CLI Tool".toList) := by decide
    have hfind := find?_marker es hes
      (fun kv => strContains path kv.1 || strContains content kv.1)
      "build.gradle".toList "Gradle (Java/Kotlin) CLI Tool".toList (by decide) hmatch
      (fun kv hkv hp => hkey kv hkv (honlykey kv hkv hp))
    unfold detect_project_type_and_framework_with
    rw [if_neg hnw, hfind]

theorem marker_overwrite_pom_gradle_witness :
    (detect_project_type_and_framework "pom.xml".toList []).1 =
      some "Java CLI Tool".toList ∧
    (detect_project_type_and_framework "pom.xml".toList []).1 ≠
      some "Java Backend".toList ∧
    (detect_project_type_and_framework "build.gradle".toList []).1 =
      some "Gradle (Java/Kotlin) CLI Tool".toList ∧
    (detect_project_type_and_framework "build.gradle".toList []).1 ≠
      some "Kotlin Backend".toList := by
  have h1 := marker_overwrite_pom_gradle projectTypesList "pom.xml".toList []
    (List.Perm.refl _)
  have h2 := marker_overwrite_pom_gradle projectTypesList "build.gradle".toList []
    (List.Perm.refl _)
  exact ⟨h1.2.1 (by decide) (by decide) (by decide), h1.1.1,
    h2.2.2 (by decide) (by decide) (by decide), h2.1.2⟩

end ProjectChecker
